import Mathlib

/-!
# Verification of the pyMoth connectivity builder

Shallow embedding of `support_functions/connect_mat.py`
(`initializeConnectionMatrices`) and proofs about the claims of the
specification.

Modelling conventions:
* Machine floats are modelled by exact rationals `ℚ`.  A float value that can
  be NaN or Inf (produced only by a division) is modelled by `Option ℚ`, with
  `none` standing for "NaN or Inf".
* `numpy` pseudo-random draws are inputs: every draw site of the source
  receives its own arbitrary stream (a function out of `ℕ`), so theorems
  quantified over the streams hold "for every random state".
* Python exceptions are modelled by `Except`.  Because the Python code
  mutates the parameter object `mP` in place, an exception carries the
  partially mutated record.
* `decimal.Decimal` arithmetic (`getcontext().prec = 4`) is modelled exactly
  in `ℚ`; the 4-significant-digit rounding of `Decimal` division is not
  modelled (all concrete instances used below divide exactly).
-/

namespace PyMoth

/-- Python exceptions that `initializeConnectionMatrices` can raise.
`preconditionNonPositiveVariance` is never produced by the code: it is the
descriptive precondition error that the specification's error-handling design
(§7, "non-positive variance") prescribes, kept in the type so that the spec's
description can be compared with what the code actually raises. -/
inductive PyErr where
  | decimalDivisionByZero      -- decimal.DivisionByZero, from Decimal x / Decimal 0, x ≠ 0
  | decimalInvalidOperation    -- decimal.InvalidOperation, from Decimal 0 / Decimal 0
  | valueError                 -- numpy ValueError (negative shape/scale for np.random.gamma)
  | attributeError             -- AttributeError (missing attribute on mP)
  | typeError                  -- TypeError (np.random.rand called with an array argument)
  | zeroDivisionError          -- ZeroDivisionError (nF*RperFRawNum/nR with nR = 0)
  | preconditionNonPositiveVariance
  deriving DecidableEq, Repr

/-- Float division as numpy performs it on scalars: a zero denominator yields
NaN (0/0) or ±Inf (x/0, x ≠ 0), collapsed here to `none`. -/
def pyDiv (x y : ℚ) : Option ℚ :=
  if y = 0 then none else some (x / y)

/-- The Gamma-parameter derivation used four times by the source
(`connect_mat.py` lines 68-69, 213-214, 219-220, 225-226):
`a = Decimal(m)/Decimal(s)`, `b = Decimal(m)/a`.
`Decimal` raises `DivisionByZero` for `x/0` with `x ≠ 0` and
`InvalidOperation` for `0/0`. -/
def gammaParams (m s : ℚ) : Except PyErr (ℚ × ℚ) :=
  if s = 0 then .error .decimalDivisionByZero
  else
    let a := m / s
    if a = 0 then .error .decimalInvalidOperation
    else .ok (a, m / a)

/-- `np.random.gamma(shape, scale, size=(n,1))`: numpy raises `ValueError`
when the shape or the scale argument is negative; otherwise it returns the
drawn vector (the draws themselves are an input stream here). -/
def npGammaVec (shape scale : ℚ) (n : ℕ) (draw : ℕ → ℚ) : Except PyErr (List ℚ) :=
  if shape < 0 ∨ scale < 0 then .error .valueError
  else .ok ((List.range n).map draw)

/-- Boolean mask to 0/1 value, as numpy multiplication by a boolean array. -/
def maskVal (b : Bool) : ℚ := if b then 1 else 0

/-- Entry formula of `F2R` (line 59-60):
`F2R = (F2Rmu*F2Rbinary + F2Rstd*rand_mat)*F2Rbinary`, then `max(0, ·)`. -/
def f2rEntry (mu sd : ℚ) (mask : ℕ → ℕ → Bool) (g : ℕ → ℕ → ℚ) (i j : ℕ) : ℚ :=
  max 0 ((mu * maskVal (mask i j) + sd * g i j) * maskVal (mask i j))

/-- The cap assignment `M[M > c] = c` (lines 128, 161, 177), entrywise. -/
def capAt (c x : ℚ) : ℚ := if c < x then c else x

/-- Entry formula of `P2K` (lines 125-128): `max(0, mu + sd*g)`, masked by
`P2KconnMatrix`, then capped at `hebMaxPK`. -/
def p2kEntry (mu sd cap : ℚ) (mask : ℕ → ℕ → Bool) (g : ℕ → ℕ → ℚ) (i j : ℕ) : ℚ :=
  capAt cap (max 0 (mu + sd * g i j) * maskVal (mask i j))

/-- Entry formula of `K2E` (lines 175-177): same shape as `P2K` with cap
`hebMaxKE`. -/
def k2eEntry (mu sd cap : ℚ) (mask : ℕ → ℕ → Bool) (g : ℕ → ℕ → ℚ) (i j : ℕ) : ℚ :=
  capAt cap (max 0 (mu + sd * g i j) * maskVal (mask i j))

/-- `kGlobalDampVec = kGlobalDampFactor + kGlobalDampStd*normal` (line 229).
Note: no `np.maximum(0, ·)` is applied to this vector. -/
def kGlobalDampVecDef (factor sd : ℚ) (nK : ℕ) (g : ℕ → ℚ) : List ℚ :=
  (List.range nK).map (fun i => factor + sd * g i)

/-- Probabilistic mask (line 29, also lines 122, 143, 158, 172):
`r.rand(m, n) < p`, entry included iff its uniform draw is below `p`. -/
def probMask (p : ℚ) (u : ℕ → ℕ → ℚ) (i j : ℕ) : Bool :=
  decide (u i j < p)

/-- Number of `true` entries in row `x` of a mask with `nF` columns. -/
def rowOnes (nF : ℕ) (mask : ℕ → ℕ → Bool) (x : ℕ) : ℕ :=
  ((Finset.range nF).filter (fun j => mask x j = true)).card

/-- Number of `true` entries in column `j` of a mask with `nR` rows. -/
def colOnes (nR : ℕ) (mask : ℕ → ℕ → Bool) (j : ℕ) : ℕ :=
  ((Finset.range nR).filter (fun i => mask i j = true)).card

/-- `maxFperR = np.ceil(nF*RperFRawNum/nR)` (line 47): ceiling division. -/
def maxFperR (nF k nR : ℕ) : ℕ := (nF * k + nR - 1) / nR

/-- State of the capacity-constrained round-robin loop (lines 44-54):
`counts` tracks how many sources are hitting each destination row, `mask` is
the matrix `F2Rbinary` being filled. -/
structure RRState where
  counts : ℕ → ℕ
  mask : ℕ → ℕ → Bool

/-- `inds = np.nonzero(counts < maxFperR)[0]` (line 51): the ascending list
of row indices still under capacity. -/
def rrInds (nR cap : ℕ) (s : RRState) : List ℕ :=
  (List.range nR).filter (fun x => s.counts x < cap)

/-- `inds[a]` with `a = np.random.randint(len(inds))` (line 52): the random
draw is modelled by `pick t` reduced mod the candidate count. -/
def rrPicked (nR cap : ℕ) (pick : ℕ → ℕ) (s : RRState) (t : ℕ) : ℕ :=
  (rrInds nR cap s).getD (pick t % (rrInds nR cap s).length) 0

/-- One iteration of the nested loop of lines 49-54, at flattened step `t`
(pass `t / nF`, column `j = t % nF`): `counts[inds[a]] += 1` and
`F2Rbinary[inds[a], j] = 1`.  With an empty candidate list
`np.random.randint(0)` would raise; that case is kept as a no-op here (it is
unreachable for `nR ≥ 1`, since the total capacity `nR·maxFperR` is at least
the `nF·RperFRawNum` assignments the loop makes). -/
def rrStep (nR nF cap : ℕ) (pick : ℕ → ℕ) (s : RRState) (t : ℕ) : RRState :=
  if rrInds nR cap s = [] then s
  else
    { counts := fun y => if y = rrPicked nR cap pick s t then s.counts y + 1 else s.counts y
      mask := fun y j =>
        if y = rrPicked nR cap pick s t ∧ j = t % nF then true else s.mask y j }

/-- The initial state of the loop: `F2Rbinary = np.zeros((nR, nF))`,
`counts = np.zeros((nR,1))` (lines 44-45). -/
def rrInit : RRState := ⟨fun _ => 0, fun _ _ => false⟩

/-- The whole nested loop of lines 49-54: `RperFRawNum` passes over the `nF`
columns, i.e. `k*nF` flattened steps. -/
def rrRun (nR nF k cap : ℕ) (pick : ℕ → ℕ) : RRState :=
  (List.range (k * nF)).foldl (rrStep nR nF cap pick) rrInit

/-- `F2Rbinary` in the capacity-constrained branch (lines 43-54). -/
def assignMask (nR nF k : ℕ) (pick : ℕ → ℕ) : ℕ → ℕ → Bool :=
  (rrRun nR nF k (maxFperR nF k nR) pick).mask

/-! Section: The lateral matrix `L2G` (lines 88-111) -/

/-- Lines 88-90: `L2G = L2Gmu + L2Gstd*normal`, `np.maximum(0, ·)`, then the
diagonal is set to 0. -/
def l2gDiag0 (mu sd : ℚ) (g : ℕ → ℕ → ℚ) (i j : ℕ) : ℚ :=
  if i = j then 0 else max 0 (mu + sd * g i j)

/-- Number of zero entries among the full `N×N` matrix. -/
def zeroCount (N : ℕ) (M : ℕ → ℕ → ℚ) : ℕ :=
  ((Finset.range N ×ˢ Finset.range N).filter (fun p => M p.1 p.2 = 0)).card

/-- `numZero = (L2G.flatten()==0).sum() - nG` (line 93): zero entries of the
flattened matrix minus the `N` diagonal zeroes. -/
def numZero (N : ℕ) (M : ℕ → ℕ → ℚ) : ℕ := zeroCount N M - N

/-- `numToKill = np.floor((1-L2Gfr)*(nG**2 - nG) - numZero)` (line 94). -/
def numToKill (f : ℚ) (N nz : ℕ) : ℤ :=
  ⌊(1 - f) * ((N : ℚ) ^ 2 - N) - nz⌋

/-- The sparsity-correction pass and final reshape (lines 93-100).  When
`numToKill > 0` the matrix is flattened in C order (`flatten()` default), each
positive entry whose uniform draw falls below
`numToKill/(nG² - nG - numZero)` is zeroed, and the result is reshaped to
`(nG, nG)` in Fortran order; composing a C-order flatten with an F-order
reshape transposes the matrix.  When `numToKill ≤ 0` only the (shape
preserving, hence identity) reshape runs. -/
def l2gCorrected (N : ℕ) (mu sd f : ℚ) (g : ℕ → ℕ → ℚ) (u : ℕ → ℚ) (i j : ℕ) : ℚ :=
  let M := l2gDiag0 mu sd g
  let nz := numZero N M
  let k := numToKill f N nz
  if 0 < k then
    let p := (k : ℚ) / ((N ^ 2 - N - nz : ℕ) : ℚ)
    let flat := fun t => M (t / N) (t % N)
    let flat2 := fun t => if 0 < flat t ∧ u t < p then 0 else flat t
    flat2 (i + j * N)
  else M i j

/-- The final stored `L2G`: the corrected matrix scaled by `GsensMu`
(line 111, `L2G *= GsensMu`). -/
def l2gFinal (N : ℕ) (mu sd f gsMu : ℚ) (g : ℕ → ℕ → ℚ) (u : ℕ → ℚ) (i j : ℕ) : ℚ :=
  gsMu * l2gCorrected N mu sd f g u i j

/-- `L2GgabaSens = L2G * np.tile(gabaSens, (1, nG))` (lines 107-108): each
row of the corrected `L2G` scaled by its destination glom's gaba
sensitivity `GsensMu + GsensStd*normal`. -/
def l2gGabaSens (N : ℕ) (mu sd f gsMu gsStd : ℚ) (g : ℕ → ℕ → ℚ) (u : ℕ → ℚ)
    (gGaba : ℕ → ℚ) (i j : ℕ) : ℚ :=
  l2gCorrected N mu sd f g u i j * (gsMu + gsStd * gGaba i)

/-- Entry formula shared by `L2R`, `L2P`, `L2L`, `L2PI` (lines 114-118):
`np.maximum(0, mult + std*normal) * L2GgabaSens`. -/
def l2DerivedEntry (mult sd : ℚ) (g : ℕ → ℕ → ℚ) (gaba : ℕ → ℕ → ℚ) (i j : ℕ) : ℚ :=
  max 0 (mult + sd * g i j) * gaba i j

/-! Section: The `G2PI` block (lines 143-146) -/

/-- Row sum over the first `n` columns. -/
def rowSum (n : ℕ) (M : ℕ → ℕ → ℚ) (i : ℕ) : ℚ :=
  ∑ j ∈ Finset.range n, M i j

/-- `G2PI` before normalization (lines 144-145):
`np.maximum(0, G2PIstd*normal + G2PImu)` masked by `G2PIconn`. -/
def g2piMasked (mu sd p : ℚ) (u g : ℕ → ℕ → ℚ) (i j : ℕ) : ℚ :=
  max 0 (sd * g i j + mu) * maskVal (probMask p u i j)

/-- The row normalization of line 146:
`G2PI /= np.tile(G2PI.sum(axis=1)...)`.  The division is performed
unconditionally; a zero row sum yields NaN/Inf entries (`none`). -/
def g2piNorm (nG : ℕ) (M : ℕ → ℕ → ℚ) (i j : ℕ) : Option ℚ :=
  pyDiv (M i j) (rowSum nG M i)

/-! Section: The full builder -/

/-- The input fields of the `modelParams` object read by
`initializeConnectionMatrices`.  Population sizes are naturals, every other
hyperparameter is a (float, modelled rational) scalar.
`makeFeaturesOrthogonalFlag` is `none` when the attribute is not defined on
the object (the source's DEV NOTE at line 30 states the flag does not
exist), in which case reading it raises `AttributeError`. -/
structure ModelParams where
  nF : ℕ
  nR : ℕ
  nG : ℕ
  nK : ℕ
  nP : ℕ
  nPI : ℕ
  nE : ℕ
  RperFFrMu : ℚ
  RperSFrMu : ℚ
  makeFeaturesOrthogonalFlag : Option Bool
  RperFRawNum : ℕ
  F2Rmu : ℚ
  F2Rstd : ℚ
  spontRdistFlag : ℤ
  spontRmu : ℚ
  spontRstd : ℚ
  spontRbase : ℚ
  R2Gmu : ℚ
  R2Gstd : ℚ
  R2Pmult : ℚ
  R2Pstd : ℚ
  R2Lmult : ℚ
  R2Lstd : ℚ
  R2PImult : ℚ
  R2PIstd : ℚ
  L2Gmu : ℚ
  L2Gstd : ℚ
  L2Gfr : ℚ
  GsensMu : ℚ
  GsensStd : ℚ
  L2Rmult : ℚ
  L2Rstd : ℚ
  L2Pmult : ℚ
  L2Pstd : ℚ
  L2Lmult : ℚ
  L2Lstd : ℚ
  L2PIstd : ℚ
  KperPfrMu : ℚ
  P2Kmu : ℚ
  P2Kstd : ℚ
  hebMaxPK : ℚ
  GperPIfrMu : ℚ
  G2PImu : ℚ
  G2PIstd : ℚ
  KperPIfrMu : ℚ
  PI2Kmu : ℚ
  PI2Kstd : ℚ
  hebMaxPIK : ℚ
  KperEfrMu : ℚ
  K2Emu : ℚ
  K2Estd : ℚ
  hebMaxKE : ℚ
  octo2Gmu : ℚ
  octo2Gstd : ℚ
  octo2Kmu : ℚ
  octo2Kstd : ℚ
  octo2Pmult : ℚ
  octo2Pstd : ℚ
  octo2Lmult : ℚ
  octo2Lstd : ℚ
  octo2Rmult : ℚ
  octo2Rstd : ℚ
  octo2PImult : ℚ
  octo2Emu : ℚ
  octo2Estd : ℚ
  noisePI : ℚ
  PInoiseStd : ℚ
  noiseK : ℚ
  KnoiseStd : ℚ
  noiseE : ℚ
  EnoiseStd : ℚ
  noiseR : ℚ
  RnoiseStd : ℚ
  noiseP : ℚ
  PnoiseStd : ℚ
  noiseL : ℚ
  LnoiseStd : ℚ
  kGlobalDampFactor : ℚ
  kGlobalDampStd : ℚ

/-- One arbitrary stream per pseudo-random draw site of the source, in source
order.  `u*` streams model `r.rand` (uniform) draws, `g*` streams model
`r.normal(0,1)` draws, `gam*` streams model `np.random.gamma` draws, and
`rrPick` models the `np.random.randint` calls of the round-robin loop. -/
structure Draws where
  uF2R : ℕ → ℕ → ℚ := fun _ _ => 0
  rrPick : ℕ → ℕ := fun _ => 0
  gF2R : ℕ → ℕ → ℚ := fun _ _ => 0
  gRspont : ℕ → ℚ := fun _ => 0
  gamRspont : ℕ → ℚ := fun _ => 0
  gR2G : ℕ → ℚ := fun _ => 0
  gR2P : ℕ → ℚ := fun _ => 0
  gR2L : ℕ → ℚ := fun _ => 0
  gR2PIcol : ℕ → ℚ := fun _ => 0
  gL2G : ℕ → ℕ → ℚ := fun _ _ => 0
  uL2Gkill : ℕ → ℚ := fun _ => 0
  gGaba : ℕ → ℚ := fun _ => 0
  gL2R : ℕ → ℕ → ℚ := fun _ _ => 0
  gL2P : ℕ → ℕ → ℚ := fun _ _ => 0
  gL2L : ℕ → ℕ → ℚ := fun _ _ => 0
  gL2PI : ℕ → ℕ → ℚ := fun _ _ => 0
  uP2K : ℕ → ℕ → ℚ := fun _ _ => 0
  gP2K : ℕ → ℕ → ℚ := fun _ _ => 0
  uG2PI : ℕ → ℕ → ℚ := fun _ _ => 0
  gG2PI : ℕ → ℕ → ℚ := fun _ _ => 0
  uPI2K : ℕ → ℕ → ℚ := fun _ _ => 0
  gPI2K : ℕ → ℕ → ℚ := fun _ _ => 0
  uK2E : ℕ → ℕ → ℚ := fun _ _ => 0
  gK2E : ℕ → ℕ → ℚ := fun _ _ => 0
  gOcto2G : ℕ → ℚ := fun _ => 0
  gOcto2K : ℕ → ℚ := fun _ => 0
  gOcto2P : ℕ → ℚ := fun _ => 0
  gOcto2L : ℕ → ℚ := fun _ => 0
  gOcto2R : ℕ → ℚ := fun _ => 0
  gOcto2E : ℕ → ℚ := fun _ => 0
  gNoisePI : ℕ → ℚ := fun _ => 0
  gNoiseK : ℕ → ℚ := fun _ => 0
  gNoiseE : ℕ → ℚ := fun _ => 0
  gamNoiseR : ℕ → ℚ := fun _ => 0
  gamNoiseP : ℕ → ℚ := fun _ => 0
  gamNoiseL : ℕ → ℚ := fun _ => 0
  gKGlobalDamp : ℕ → ℚ := fun _ => 0

/-- The fields that `initializeConnectionMatrices` appends to `mP`, all
initially absent (`none`).  Matrices are row lists; matrices that can hold
NaN/Inf after a division store `Option ℚ` entries.  `L2PI` holds its final
value (the line-150 overwrite of the line-118 assignment). -/
structure PartialModel where
  F2Rbinary : Option (List (List Bool)) := none
  F2R : Option (List (List ℚ)) := none
  Rspont : Option (List ℚ) := none
  R2G : Option (List ℚ) := none
  R2P : Option (List ℚ) := none
  R2L : Option (List ℚ) := none
  R2PIcol : Option (List ℚ) := none
  L2G : Option (List (List ℚ)) := none
  L2R : Option (List (List ℚ)) := none
  L2P : Option (List (List ℚ)) := none
  L2L : Option (List (List ℚ)) := none
  L2PI : Option (List (List (Option ℚ))) := none
  P2K : Option (List (List ℚ)) := none
  G2PIconn : Option (List (List Bool)) := none
  G2PI : Option (List (List (Option ℚ))) := none
  R2PI : Option (List (List (Option ℚ))) := none
  PI2Kconn : Option (List (List Bool)) := none
  PI2K : Option (List (List ℚ)) := none
  K2EconnMatrix : Option (List (List Bool)) := none
  K2E : Option (List (List ℚ)) := none
  octo2G : Option (List ℚ) := none
  octo2K : Option (List ℚ) := none
  octo2P : Option (List ℚ) := none
  octo2L : Option (List ℚ) := none
  octo2R : Option (List ℚ) := none
  octo2PIwts : Option (List (List (Option ℚ))) := none
  octo2PI : Option (List (Option ℚ)) := none
  octo2E : Option (List ℚ) := none
  noisePIvec : Option (List ℚ) := none
  noiseKvec : Option (List ℚ) := none
  noiseEvec : Option (List ℚ) := none
  noiseRvec : Option (List ℚ) := none
  noisePvec : Option (List ℚ) := none
  noiseLvec : Option (List ℚ) := none
  kGlobalDampVec : Option (List ℚ) := none

/-- Materialize an `m × n` entry function as a row-list matrix. -/
def matInit {α : Type} (m n : ℕ) (f : ℕ → ℕ → α) : List (List α) :=
  (List.range m).map (fun i => (List.range n).map (f i))

/-- Materialize an `n × 1` entry function as a column vector. -/
def vecInit {α : Type} (n : ℕ) (f : ℕ → α) : List α :=
  (List.range n).map f

/-- Float addition where either operand may be NaN/Inf. -/
def optAdd : Option ℚ → Option ℚ → Option ℚ
  | some a, some b => some (a + b)
  | _, _ => none

/-- Float sum of a list of possibly-NaN/Inf values (NaN propagates). -/
def optSum (l : List (Option ℚ)) : Option ℚ :=
  l.foldl optAdd (some 0)

/-- Division of a possibly-NaN numerator by a float denominator. -/
def optPyDiv (o : Option ℚ) (d : ℚ) : Option ℚ :=
  match o with
  | none => none
  | some x => pyDiv x d

/-- Lines 28-54: construction of the binary mask `F2Rbinary`.
In probabilistic mode (`RperFFrMu > 0`) the mask is drawn with inclusion
probability `RperSFrMu` (line 29) and then `mP.makeFeaturesOrthogonalFlag`
is read (line 31): `AttributeError` when the attribute is absent; when
present and truthy, the loop of lines 34-40 raises `TypeError` at the first
row with more than one active entry (`np.ceil(r.rand(1, c))` is called with
the index array `c`), and is a no-op otherwise.
In capacity mode (`RperFFrMu ≤ 0`), `F2Rbinary` is first zeroed (line 44);
`np.ceil(mP.nF*mP.RperFRawNum/mP.nR)` (line 47) raises `ZeroDivisionError`
when `nR = 0`; otherwise the round-robin loop fills the mask. -/
def stage1 (mP : ModelParams) (d : Draws) : Except (PyErr × PartialModel) PartialModel :=
  if 0 < mP.RperFFrMu then
    let m1 : PartialModel :=
      { F2Rbinary := some (matInit mP.nR mP.nF (probMask mP.RperSFrMu d.uF2R)) }
    match mP.makeFeaturesOrthogonalFlag with
    | none => .error (.attributeError, m1)
    | some flag =>
      if flag then
        if (List.range mP.nR).any
            (fun i => 1 < rowOnes mP.nF (probMask mP.RperSFrMu d.uF2R) i) then
          .error (.typeError, m1)
        else .ok m1
      else .ok m1
  else
    let m0 : PartialModel := { F2Rbinary := some (matInit mP.nR mP.nF (fun _ _ => false)) }
    if mP.nR = 0 then .error (.zeroDivisionError, m0)
    else .ok { F2Rbinary := some (matInit mP.nR mP.nF (assignMask mP.nR mP.nF mP.RperFRawNum d.rrPick)) }

/-- Lines 57-71: the weight matrix `F2R` (always assigned) and the
spontaneous firing-rate vector `Rspont` (Gaussian branch when
`spontRdistFlag == 1`, otherwise the Gamma branch whose `Decimal`
derivation and `np.random.gamma` call can raise). -/
def stage2 (mP : ModelParams) (d : Draws) (m : PartialModel) : Except (PyErr × PartialModel) PartialModel :=
  let maskFn := fun i j => ((m.F2Rbinary.getD []).getD i []).getD j false
  let m := { m with F2R := some (matInit mP.nR mP.nF (f2rEntry mP.F2Rmu mP.F2Rstd maskFn d.gF2R)) }
  if mP.spontRdistFlag = 1 then
    let rsp := vecInit mP.nG (fun i => max 0 (mP.spontRmu + mP.spontRstd * d.gRspont i))
    .ok { m with Rspont := some rsp }
  else
    match gammaParams mP.spontRmu mP.spontRstd with
    | .error e => .error (e, m)
    | .ok ab =>
      match npGammaVec ab.1 ab.2 mP.nG d.gamRspont with
      | .error e => .error (e, m)
      | .ok gvec => .ok { m with Rspont := some (gvec.map (fun x => mP.spontRbase + x)) }

/-- Lines 74-211 except the Gamma noise vectors: the pure middle of the
builder.  Every assignment here is total (the divisions of lines 146 and 198
produce NaN/Inf values, not exceptions). -/
def stage3 (mP : ModelParams) (d : Draws) (m : PartialModel) : PartialModel :=
  -- line 74: R2G = R2Gmu*ones + R2Gstd*normal (no clamp)
  let r2g := fun i => mP.R2Gmu + mP.R2Gstd * d.gR2G i
  -- line 82: interim col vector R2PIcol
  let r2picol := fun i => (mP.R2PImult + mP.R2PIstd * d.gR2PIcol i) * r2g i
  -- lines 88-100: the corrected lateral matrix
  let corrected := l2gCorrected mP.nG mP.L2Gmu mP.L2Gstd mP.L2Gfr d.gL2G d.uL2Gkill
  -- lines 107-108: gaba-sensitivity-scaled version
  let gaba := l2gGabaSens mP.nG mP.L2Gmu mP.L2Gstd mP.L2Gfr mP.GsensMu mP.GsensStd
    d.gL2G d.uL2Gkill d.gGaba
  -- line 111: the stored L2G is the corrected matrix scaled by GsensMu
  let l2gFin := fun i j => mP.GsensMu * corrected i j
  -- lines 143-146: G2PI mask, weights, row normalization
  let g2piConn := probMask mP.GperPIfrMu d.uG2PI
  let g2piN := g2piNorm mP.nG (g2piMasked mP.G2PImu mP.G2PIstd mP.GperPIfrMu d.uG2PI d.gG2PI)
  -- lines 182-190: octopamine vectors
  let octo2Gfun := fun i => max 0 (mP.octo2Gmu + mP.octo2Gstd * d.gOcto2G i)
  { m with
    R2G := some (vecInit mP.nG r2g)
    R2P := some (vecInit mP.nG (fun i => (mP.R2Pmult + mP.R2Pstd * d.gR2P i) * r2g i))
    R2L := some (vecInit mP.nG (fun i => (mP.R2Lmult + mP.R2Lstd * d.gR2L i) * r2g i))
    R2PIcol := some (vecInit mP.nG r2picol)
    L2G := some (matInit mP.nG mP.nG l2gFin)
    L2R := some (matInit mP.nG mP.nG (l2DerivedEntry mP.L2Rmult mP.L2Rstd d.gL2R gaba))
    L2P := some (matInit mP.nG mP.nG (l2DerivedEntry mP.L2Pmult mP.L2Pstd d.gL2P gaba))
    L2L := some (matInit mP.nG mP.nG (l2DerivedEntry mP.L2Lmult mP.L2Lstd d.gL2L gaba))
    -- line 118 assigns L2PI = max(0, L2Lmult + L2PIstd*normal)*gaba, but
    -- line 150 overwrites it with np.matmul(G2PI, L2G); the stored value is
    -- the overwrite (NaN rows of G2PI propagate through the dot products)
    L2PI := some (matInit mP.nPI mP.nG (fun i j =>
      optSum ((List.range mP.nG).map (fun k => (g2piN i k).map (fun x => x * l2gFin k j)))))
    P2K := some (matInit mP.nK mP.nP
      (p2kEntry mP.P2Kmu mP.P2Kstd mP.hebMaxPK (probMask mP.KperPfrMu d.uP2K) d.gP2K))
    G2PIconn := some (matInit mP.nPI mP.nG g2piConn)
    G2PI := some (matInit mP.nPI mP.nG g2piN)
    -- line 152: R2PI = G2PI*R2PIcol.T
    R2PI := some (matInit mP.nPI mP.nG (fun i j => (g2piN i j).map (fun x => x * r2picol j)))
    -- lines 157-161: only when nPI > 0
    PI2Kconn := if 0 < mP.nPI then
        some (matInit mP.nK mP.nPI (probMask mP.KperPIfrMu d.uPI2K)) else none
    PI2K := if 0 < mP.nPI then
        some (matInit mP.nK mP.nPI (fun i j =>
          capAt mP.hebMaxPIK (max 0 (mP.PI2Kmu + mP.PI2Kstd * d.gPI2K i j) *
            maskVal (probMask mP.KperPIfrMu d.uPI2K i j)))) else none
    K2EconnMatrix := some (matInit mP.nE mP.nK (probMask mP.KperEfrMu d.uK2E))
    K2E := some (matInit mP.nE mP.nK
      (k2eEntry mP.K2Emu mP.K2Estd mP.hebMaxKE (probMask mP.KperEfrMu d.uK2E) d.gK2E))
    octo2G := some (vecInit mP.nG octo2Gfun)
    octo2K := some (vecInit mP.nK (fun i => max 0 (mP.octo2Kmu + mP.octo2Kstd * d.gOcto2K i)))
    octo2P := some (vecInit mP.nG (fun i =>
      max 0 (mP.octo2Pmult * octo2Gfun i + mP.octo2Pstd * d.gOcto2P i)))
    octo2L := some (vecInit mP.nG (fun i =>
      max 0 (mP.octo2Lmult * octo2Gfun i + mP.octo2Lstd * d.gOcto2L i)))
    octo2R := some (vecInit mP.nG (fun i =>
      max 0 (mP.octo2Rmult * octo2Gfun i + mP.octo2Rstd * d.gOcto2R i)))
    -- line 196: octo2PIwts = G2PI*(octo2PImult*octo2G.T)
    octo2PIwts := some (matInit mP.nPI mP.nG (fun i j =>
      (g2piN i j).map (fun x => x * (mP.octo2PImult * octo2Gfun j))))
    -- line 198: octo2PI = octo2PIwts.sum(axis=1)/G2PIconn.sum(axis=1)
    octo2PI := some (vecInit mP.nPI (fun i =>
      optPyDiv (optSum ((List.range mP.nG).map (fun j =>
        (g2piN i j).map (fun x => x * (mP.octo2PImult * octo2Gfun j)))))
        ((rowOnes mP.nG g2piConn i : ℕ) : ℚ)))
    octo2E := some (vecInit mP.nE (fun i => max 0 (mP.octo2Emu + mP.octo2Estd * d.gOcto2E i)))
    noisePIvec := some (vecInit mP.nPI (fun i => max 0 (mP.noisePI + mP.PInoiseStd * d.gNoisePI i)))
    noiseKvec := some (vecInit mP.nK (fun i => max 0 (mP.noiseK + mP.KnoiseStd * d.gNoiseK i)))
    noiseEvec := some (vecInit mP.nE (fun i => max 0 (mP.noiseE + mP.EnoiseStd * d.gNoiseE i))) }

/-- Lines 213-229: the Gamma noise vectors and `kGlobalDampVec`.
`noiseRvec` and `noisePvec` clamp draws above 15 to 0 (lines 217, 223);
`noisePvec` is drawn with `size=(mP.nR,1)` exactly as in line 221 of the
source, and `noiseLvec` with `size=(mP.nG,1)`. -/
def stage4 (mP : ModelParams) (d : Draws) (m : PartialModel) : Except (PyErr × PartialModel) PartialModel :=
  match gammaParams mP.noiseR mP.RnoiseStd with
  | .error e => .error (e, m)
  | .ok ab =>
    match npGammaVec ab.1 ab.2 mP.nR d.gamNoiseR with
    | .error e => .error (e, m)
    | .ok v =>
      let m := { m with noiseRvec := some (v.map (fun x => if 15 < x then 0 else x)) }
      match gammaParams mP.noiseP mP.PnoiseStd with
      | .error e => .error (e, m)
      | .ok ab2 =>
        match npGammaVec ab2.1 ab2.2 mP.nR d.gamNoiseP with
        | .error e => .error (e, m)
        | .ok v2 =>
          let m := { m with noisePvec := some (v2.map (fun x => if 15 < x then 0 else x)) }
          match gammaParams mP.noiseL mP.LnoiseStd with
          | .error e => .error (e, m)
          | .ok ab3 =>
            match npGammaVec ab3.1 ab3.2 mP.nG d.gamNoiseL with
            | .error e => .error (e, m)
            | .ok v3 =>
              let m := { m with noiseLvec := some v3 }
              let damp := kGlobalDampVecDef mP.kGlobalDampFactor mP.kGlobalDampStd mP.nK d.gKGlobalDamp
              .ok { m with kGlobalDampVec := some damp }

/-- The whole of `initializeConnectionMatrices`: stages in source order; an
exception anywhere aborts the rest and surfaces together with the fields
already appended to `mP` (the object is mutated in place in the source, so a
caller that catches the exception observes exactly these fields). -/
def initializeConnectionMatrices (mP : ModelParams) (d : Draws) : Except (PyErr × PartialModel) PartialModel :=
  match stage1 mP d with
  | .error e => .error e
  | .ok m1 =>
    match stage2 mP d m1 with
    | .error e => .error e
    | .ok m2 => stage4 mP d (stage3 mP d m2)

/-- The exception raised by a builder run, if any. -/
def errOf : Except (PyErr × PartialModel) PartialModel → Option PyErr
  | .error p => some p.1
  | .ok _ => none

/-- The partially mutated parameter object carried by a raised exception. -/
def errState : Except (PyErr × PartialModel) PartialModel → Option PartialModel
  | .error p => some p.2
  | .ok _ => none

/-- Number of non-zero off-diagonal entries of an `N×N` matrix. -/
def offDiagNonzero (N : ℕ) (M : ℕ → ℕ → ℚ) : ℕ :=
  ((Finset.range N ×ˢ Finset.range N).filter (fun p => p.1 ≠ p.2 ∧ M p.1 p.2 ≠ 0)).card

/-- All-default random streams (every draw is 0), for concrete runs. -/
def zeroDraws : Draws := {}

/-- A benign concrete parameter record: all populations of size 1, capacity
mask mode, Gaussian `Rspont`, all fractions 1, all stds 0 except the Gamma
noise pairs, all caps 10.  Concrete claims below override single fields. -/
def baseParams : ModelParams where
  nF := 1
  nR := 1
  nG := 1
  nK := 1
  nP := 1
  nPI := 1
  nE := 1
  RperFFrMu := 0
  RperSFrMu := 1/2
  makeFeaturesOrthogonalFlag := some false
  RperFRawNum := 1
  F2Rmu := 1
  F2Rstd := 0
  spontRdistFlag := 1
  spontRmu := 1
  spontRstd := 0
  spontRbase := 0
  R2Gmu := 1
  R2Gstd := 0
  R2Pmult := 1
  R2Pstd := 0
  R2Lmult := 1
  R2Lstd := 0
  R2PImult := 1
  R2PIstd := 0
  L2Gmu := 1
  L2Gstd := 0
  L2Gfr := 1
  GsensMu := 1
  GsensStd := 0
  L2Rmult := 1
  L2Rstd := 0
  L2Pmult := 1
  L2Pstd := 0
  L2Lmult := 1
  L2Lstd := 0
  L2PIstd := 0
  KperPfrMu := 1
  P2Kmu := 1
  P2Kstd := 0
  hebMaxPK := 10
  GperPIfrMu := 1
  G2PImu := 1
  G2PIstd := 0
  KperPIfrMu := 1
  PI2Kmu := 1
  PI2Kstd := 0
  hebMaxPIK := 10
  KperEfrMu := 1
  K2Emu := 1
  K2Estd := 0
  hebMaxKE := 10
  octo2Gmu := 1
  octo2Gstd := 0
  octo2Kmu := 1
  octo2Kstd := 0
  octo2Pmult := 1
  octo2Pstd := 0
  octo2Lmult := 1
  octo2Lstd := 0
  octo2Rmult := 1
  octo2Rstd := 0
  octo2PImult := 1
  octo2Emu := 1
  octo2Estd := 0
  noisePI := 1
  PInoiseStd := 0
  noiseK := 1
  KnoiseStd := 0
  noiseE := 1
  EnoiseStd := 0
  noiseR := 1
  RnoiseStd := 1
  noiseP := 1
  PnoiseStd := 1
  noiseL := 1
  LnoiseStd := 1
  kGlobalDampFactor := 1
  kGlobalDampStd := 0

/-- Parameters exhibiting the `noisePvec` sizing slip: `nR = 3`, `nP = 2`. -/
def mPc8 : ModelParams := { baseParams with nR := 3, nP := 2 }

/-- Parameters whose Gamma noise std is zero: `RnoiseStd = 0`. -/
def mPc9 : ModelParams := { baseParams with RnoiseStd := 0 }

/-- Parameters in probabilistic mask mode with the orthogonality flag
attribute absent. -/
def mPc10 : ModelParams := { baseParams with RperFFrMu := 1, makeFeaturesOrthogonalFlag := none }

/-! Section: Helper lemmas -/

theorem maskVal_nonneg (b : Bool) : 0 ≤ maskVal b := by
  cases b <;> simp [maskVal]

theorem capAt_nonneg {c x : ℚ} (hc : 0 ≤ c) (hx : 0 ≤ x) : 0 ≤ capAt c x := by
  unfold capAt
  split
  · exact hc
  · exact hx

/-! Section: Claim C4 -/

/-- Claim C4 counterexample: at target mean `m = 4` and std `s = 2` the code
derives `(shape, scale) = (2, 2)` (that is, `m/s` and `s`), while the claim
prescribes shape `(m/s)² = 4` and scale `s²/m = 1`; with the code's values
`shape·scale² = 8 ≠ s² = 4`, so the drawn Gamma does not have standard
deviation `s`. -/
theorem c4_counterexample :
    gammaParams 4 2 = .ok (2, 2) ∧
    ¬ ((2 : ℚ) = (4 / 2) ^ 2 ∧ (2 : ℚ) = 2 ^ 2 / 4) ∧
    ¬ ((2 : ℚ) * 2 ^ 2 = (2 : ℚ) ^ 2) := by
  refine ⟨?_, by norm_num, by norm_num⟩
  norm_num [gammaParams]

/-- Claim C4 (amended): for `m ≠ 0` and `s ≠ 0` the Gamma-vector sampler
derives shape `k = m/s` and scale `θ = s` (not `(m/s)²` and `s²/m`), so the
drawn Gamma distribution has mean `k·θ = m` as targeted, but second moment
`k·θ² = m·s` instead of `s²`; this is the derivation shared by the Rspont
gamma branch, `noiseRvec`, `noisePvec` and `noiseLvec`. -/
theorem c4_amended (m s : ℚ) (hm : m ≠ 0) (hs : s ≠ 0) :
    gammaParams m s = .ok (m / s, s) ∧ (m / s) * s = m ∧ (m / s) * s ^ 2 = m * s := by
  have ha : m / s ≠ 0 := div_ne_zero hm hs
  have hb : m / (m / s) = s := by
    rw [div_div_eq_mul_div]
    exact mul_div_cancel_left₀ s hm
  refine ⟨?_, div_mul_cancel₀ m hs, ?_⟩
  · simp only [gammaParams, if_neg hs, if_neg ha, hb]
  · rw [pow_two, ← mul_assoc, div_mul_cancel₀ m hs]

/-- Witness for `c4_amended` at `(m, s) = (4, 2)`. -/
theorem c4_amended_witness :
    gammaParams 4 2 = .ok (4 / 2, 2) ∧ (4 / 2 : ℚ) * 2 = 4 ∧ (4 / 2 : ℚ) * 2 ^ 2 = 4 * 2 :=
  c4_amended 4 2 (by norm_num) (by norm_num)

/-! Section: Claim C5 -/

/-- Claim C5 counterexample: `kGlobalDampVec` is built without any
`np.maximum(0, ·)` clamp, so with `kGlobalDampFactor = 0`,
`kGlobalDampStd = 1` and a normal draw of `-1` its entry is `-1 < 0`. -/
theorem c5_counterexample :
    kGlobalDampVecDef 0 1 1 (fun _ => -1) = [-1] ∧ ((-1 : ℚ) < 0) := by
  constructor
  · with_unfolding_all decide
  · norm_num

/-- Claim C5 (amended): the weight matrices that the builder clamps with
`np.maximum(0, ·)` as their final sampling step — `F2R`, and `P2K`/`K2E`
provided their caps `hebMaxPK`/`hebMaxKE` are non-negative — have all
entries `≥ 0`; the unclamped artifacts (`kGlobalDampVec`, and likewise
`R2G` and its products) carry no such guarantee. -/
theorem c5_amended (muF sdF muP sdP capP muK sdK capK : ℚ)
    (maskF maskP maskK : ℕ → ℕ → Bool) (gF gP gK : ℕ → ℕ → ℚ) (i j : ℕ)
    (hP : 0 ≤ capP) (hK : 0 ≤ capK) :
    0 ≤ f2rEntry muF sdF maskF gF i j ∧
    0 ≤ p2kEntry muP sdP capP maskP gP i j ∧
    0 ≤ k2eEntry muK sdK capK maskK gK i j := by
  refine ⟨le_max_left 0 _, ?_, ?_⟩
  · unfold p2kEntry
    exact capAt_nonneg hP (mul_nonneg (le_max_left 0 _) (maskVal_nonneg _))
  · unfold k2eEntry
    exact capAt_nonneg hK (mul_nonneg (le_max_left 0 _) (maskVal_nonneg _))

/-- Witness for `c5_amended` with caps `10` at entry `(0,0)`. -/
theorem c5_amended_witness :
    0 ≤ f2rEntry 1 0 (fun _ _ => true) (fun _ _ => 0) 0 0 ∧
    0 ≤ p2kEntry 1 0 10 (fun _ _ => true) (fun _ _ => 0) 0 0 ∧
    0 ≤ k2eEntry 1 0 10 (fun _ _ => true) (fun _ _ => 0) 0 0 :=
  c5_amended 1 0 1 0 10 1 0 10 (fun _ _ => true) (fun _ _ => true) (fun _ _ => true)
    (fun _ _ => 0) (fun _ _ => 0) (fun _ _ => 0) 0 0 (by norm_num) (by norm_num)

/-! Section: Claim C3 -/

/-- Claim C3: the row normalization of `G2PI` divides by the row sum
unconditionally, so a row whose binary mask selected no connections (raw
row count 0) is not left all-zero: its entries become NaN (`none`).
Concretely with `nPI = nG = 1`, `G2PImu = 1`, `G2PIstd = 0`,
`GperPIfrMu = 1/2` and a uniform draw of `1` the single mask entry is
`false`, the raw row sum is `0`, and the normalized entry is NaN. -/
theorem c3_zero_row_becomes_nan :
    probMask (1/2) (fun _ _ => 1) 0 0 = false ∧
    rowSum 1 (g2piMasked 1 0 (1/2) (fun _ _ => 1) (fun _ _ => 0)) 0 = 0 ∧
    g2piNorm 1 (g2piMasked 1 0 (1/2) (fun _ _ => 1) (fun _ _ => 0)) 0 0 = none := by
  refine ⟨by with_unfolding_all decide, by with_unfolding_all decide,
    by with_unfolding_all decide⟩

/-! Section: Claim C6 -/

/-- Claim C6 counterexample: for the pair (`G2PIconn`, `G2PI`) with
`nG = 2` and both mask entries of row 0 `false`, the normalized weight at a
masked-zero position is NaN (`none`), not exactly `0`. -/
theorem c6_counterexample :
    probMask (1/2) (fun _ _ => 1) 0 0 = false ∧
    g2piNorm 2 (g2piMasked 1 0 (1/2) (fun _ _ => 1) (fun _ _ => 0)) 0 0 ≠ some 0 := by
  refine ⟨by with_unfolding_all decide, by with_unfolding_all decide⟩

/-- Claim C6 (amended): wherever the mask entry is `0` the weight entry is
exactly `0` for the pairs (`F2Rbinary`, `F2R`) unconditionally, for
(`P2KconnMatrix`, `P2K`) and (`K2EconnMatrix`, `K2E`) provided the caps are
non-negative, and for (`G2PIconn`, `G2PI`) provided the row's raw sum is
non-zero (a row with raw sum zero is NaN after normalization). -/
theorem c6_amended (muF sdF : ℚ) (maskF : ℕ → ℕ → Bool) (gF : ℕ → ℕ → ℚ)
    (muP sdP capP : ℚ) (maskP : ℕ → ℕ → Bool) (gP : ℕ → ℕ → ℚ)
    (muK sdK capK : ℚ) (maskK : ℕ → ℕ → Bool) (gK : ℕ → ℕ → ℚ)
    (nG : ℕ) (muG sdG pG : ℚ) (uG gG : ℕ → ℕ → ℚ) (i j : ℕ)
    (hP : 0 ≤ capP) (hK : 0 ≤ capK)
    (hrow : rowSum nG (g2piMasked muG sdG pG uG gG) i ≠ 0) :
    (maskF i j = false → f2rEntry muF sdF maskF gF i j = 0) ∧
    (maskP i j = false → p2kEntry muP sdP capP maskP gP i j = 0) ∧
    (maskK i j = false → k2eEntry muK sdK capK maskK gK i j = 0) ∧
    (probMask pG uG i j = false →
      g2piNorm nG (g2piMasked muG sdG pG uG gG) i j = some 0) := by
  refine ⟨?_, ?_, ?_, ?_⟩
  · intro hmask
    simp [f2rEntry, hmask, maskVal]
  · intro hmask
    simp [p2kEntry, hmask, maskVal, capAt, not_lt.mp, if_neg (not_lt.mpr hP)]
  · intro hmask
    simp [k2eEntry, hmask, maskVal, capAt, if_neg (not_lt.mpr hK)]
  · intro hmask
    simp [g2piNorm, pyDiv, hrow, g2piMasked, hmask, maskVal]

/-- Witness for `c6_amended`: all-false masks at `(0, j)`, and a `G2PI` row
whose first entry is connected (raw sum `1 ≠ 0`) while position `(0, 1)` is
masked off. -/
theorem c6_amended_witness :
    ((fun _ _ => false : ℕ → ℕ → Bool) 0 1 = false →
      f2rEntry 1 0 (fun _ _ => false) (fun _ _ => 0) 0 1 = 0) ∧
    ((fun _ _ => false : ℕ → ℕ → Bool) 0 1 = false →
      p2kEntry 1 0 10 (fun _ _ => false) (fun _ _ => 0) 0 1 = 0) ∧
    ((fun _ _ => false : ℕ → ℕ → Bool) 0 1 = false →
      k2eEntry 1 0 10 (fun _ _ => false) (fun _ _ => 0) 0 1 = 0) ∧
    (probMask (1/2) (fun _ j => if j = 0 then 0 else 1) 0 1 = false →
      g2piNorm 2 (g2piMasked 1 0 (1/2) (fun _ j => if j = 0 then 0 else 1) (fun _ _ => 0)) 0 1 =
        some 0) :=
  c6_amended 1 0 (fun _ _ => false) (fun _ _ => 0) 1 0 10 (fun _ _ => false) (fun _ _ => 0)
    1 0 10 (fun _ _ => false) (fun _ _ => 0) 2 1 0 (1/2)
    (fun _ j => if j = 0 then 0 else 1) (fun _ _ => 0) 0 1
    (by norm_num) (by norm_num) (by with_unfolding_all decide)

/-! Section: Claim C8 -/

/-- Claim C8: the per-population sizing of `noisePvec` is broken: the source
draws it with `size=(mP.nR, 1)` (line 221), so with `nR = 3` and `nP = 2`
the built model's `noisePvec` has 3 entries, not `nP = 2` — its shape is
determined by the size of a different population. -/
theorem c8_noisePvec_sized_by_nR :
    Except.map (fun m => Option.map List.length m.noisePvec)
      (initializeConnectionMatrices mPc8 zeroDraws) = .ok (some 3) ∧
    mPc8.nR = 3 ∧ mPc8.nP = 2 ∧ (3 : ℕ) ≠ mPc8.nP := by
  refine ⟨by with_unfolding_all rfl, rfl, rfl, by decide⟩

/-! Section: Claim C7 -/

/-- Claim C7: every "no self-connection" matrix has an exactly-zero diagonal
in the final model: the corrected lateral matrix (including the case where
the sparsity-correction pass flattens in C order and reshapes back in
Fortran order, which transposes the matrix and so maps the diagonal to
itself), the stored `L2G` (scaled by `GsensMu`), the gaba-sensitivity-scaled
version, and the derived matrices `L2R`/`L2P`/`L2L` built from it. -/
theorem c7_zero_diagonal (N : ℕ) (mu sd f gsMu gsStd mult sdD : ℚ)
    (g gD : ℕ → ℕ → ℚ) (u : ℕ → ℚ) (gGaba : ℕ → ℚ) (i : ℕ) (hi : i < N) :
    l2gCorrected N mu sd f g u i i = 0 ∧
    l2gFinal N mu sd f gsMu g u i i = 0 ∧
    l2gGabaSens N mu sd f gsMu gsStd g u gGaba i i = 0 ∧
    l2DerivedEntry mult sdD gD (l2gGabaSens N mu sd f gsMu gsStd g u gGaba) i i = 0 := by
  have hN : 0 < N := lt_of_le_of_lt (Nat.zero_le i) hi
  have hdiv : (i + i * N) / N = i := by
    rw [Nat.add_mul_div_right i i hN, Nat.div_eq_of_lt hi, Nat.zero_add]
  have hmod : (i + i * N) % N = i := by
    rw [Nat.add_mul_mod_self_right]
    exact Nat.mod_eq_of_lt hi
  have h0 : l2gCorrected N mu sd f g u i i = 0 := by
    simp only [l2gCorrected, hdiv, hmod]
    split_ifs <;> simp [l2gDiag0]
  refine ⟨h0, ?_, ?_, ?_⟩
  · unfold l2gFinal
    rw [h0, mul_zero]
  · unfold l2gGabaSens
    rw [h0, zero_mul]
  · unfold l2DerivedEntry l2gGabaSens
    rw [h0, zero_mul, mul_zero]

/-- Witness for `c7_zero_diagonal` at `N = 1`, `i = 0`. -/
theorem c7_zero_diagonal_witness :
    l2gCorrected 1 1 0 (1/2) (fun _ _ => 0) (fun _ => 0) 0 0 = 0 ∧
    l2gFinal 1 1 0 (1/2) 1 (fun _ _ => 0) (fun _ => 0) 0 0 = 0 ∧
    l2gGabaSens 1 1 0 (1/2) 1 0 (fun _ _ => 0) (fun _ => 0) (fun _ => 0) 0 0 = 0 ∧
    l2DerivedEntry 1 0 (fun _ _ => 0)
      (l2gGabaSens 1 1 0 (1/2) 1 0 (fun _ _ => 0) (fun _ => 0) (fun _ => 0)) 0 0 = 0 :=
  c7_zero_diagonal 1 1 0 (1/2) 1 0 1 0 (fun _ _ => 0) (fun _ _ => 0) (fun _ => 0)
    (fun _ => 0) 0 (by norm_num)

/-! Section: Claim C1 -/

/-- Claim C1 counterexample: `N = 3`, `L2Gmu = 1`, `L2Gstd = 0`, fill ratio
`f = 1/2`, all normal draws `0`, all uniform draws `0`.  Pre-correction all
6 off-diagonal entries are `1`, `numToKill = 3 > 0`, the removal probability
is `1/2`, and every uniform draw falls below it, so the single probabilistic
pass kills all 6 entries: the final non-zero off-diagonal count is `0`,
while `round(f·(N²−N)) = 3` — off by 3, not within one. -/
theorem c1_counterexample :
    ¬ (((offDiagNonzero 3 (l2gCorrected 3 1 0 (1/2) (fun _ _ => 0) (fun _ => 0)) : ℤ) -
        round ((1/2 : ℚ) * ((3 : ℚ) ^ 2 - 3))).natAbs ≤ 1) := by
  with_unfolding_all decide

/-- Claim C1 (amended): the sparsity-quota correction is a single
probabilistic pass (each currently non-zero off-diagonal entry is zeroed
independently when its uniform draw falls below
`numToKill/(N²−N−numZero)`), with no without-replacement selection and no
recomputation; consequently the corrected matrix's off-diagonal non-zero
count never exceeds the pre-correction count, but is not guaranteed to be
within one of `round(f·(N²−N))`. -/
theorem c1_amended (N : ℕ) (mu sd f : ℚ) (g : ℕ → ℕ → ℚ) (u : ℕ → ℚ) :
    offDiagNonzero N (l2gCorrected N mu sd f g u) ≤ offDiagNonzero N (l2gDiag0 mu sd g) := by
  unfold offDiagNonzero
  by_cases hk : 0 < numToKill f N (numZero N (l2gDiag0 mu sd g))
  · apply Finset.card_le_card_of_injOn (fun p => (p.2, p.1))
    · intro p hp
      simp only [Finset.mem_filter, Finset.mem_product, Finset.mem_range] at hp ⊢
      obtain ⟨⟨hp1, hp2⟩, hne, hnz⟩ := hp
      have hN : 0 < N := lt_of_le_of_lt (Nat.zero_le p.1) hp1
      have hdiv : (p.1 + p.2 * N) / N = p.2 := by
        rw [Nat.add_mul_div_right p.1 p.2 hN, Nat.div_eq_of_lt hp1, Nat.zero_add]
      have hmod : (p.1 + p.2 * N) % N = p.1 := by
        rw [Nat.add_mul_mod_self_right]
        exact Nat.mod_eq_of_lt hp1
      refine ⟨⟨hp2, hp1⟩, Ne.symm hne, ?_⟩
      intro h0
      apply hnz
      simp only [l2gCorrected, if_pos hk, hdiv, hmod, h0]
      simp
    · intro p _ q _ h
      cases p
      cases q
      simp only [Prod.mk.injEq] at h ⊢
      exact ⟨h.2, h.1⟩
  · apply le_of_eq
    congr 1
    apply Finset.filter_congr
    intro p _
    simp [l2gCorrected, if_neg hk]

/-! Section: Claim C10 -/

/-- Claim C10: in probabilistic mask mode (`RperFFrMu > 0`), on any input
record that does not define `makeFeaturesOrthogonalFlag`, the builder raises
`AttributeError` immediately after drawing `F2Rbinary` and returns no model:
the raised state carries `F2Rbinary` — drawn with inclusion probability
`RperSFrMu`, not `RperFFrMu` — and nothing else (`F2R` is still unset). -/
theorem c10_missing_flag_aborts (mP : ModelParams) (d : Draws)
    (h1 : 0 < mP.RperFFrMu) (h2 : mP.makeFeaturesOrthogonalFlag = none) :
    errOf (initializeConnectionMatrices mP d) = some .attributeError ∧
    (errState (initializeConnectionMatrices mP d)).map (fun m => m.F2Rbinary) =
      some (some (matInit mP.nR mP.nF (probMask mP.RperSFrMu d.uF2R))) ∧
    (errState (initializeConnectionMatrices mP d)).map (fun m => m.F2R) = some none := by
  have hs1 : stage1 mP d = .error (.attributeError,
      { F2Rbinary := some (matInit mP.nR mP.nF (probMask mP.RperSFrMu d.uF2R)) }) := by
    simp only [stage1, if_pos h1, h2]
  simp [initializeConnectionMatrices, hs1, errOf, errState]

/-- Witness for `c10_missing_flag_aborts` at the concrete record `mPc10`. -/
theorem c10_missing_flag_aborts_witness :
    errOf (initializeConnectionMatrices mPc10 zeroDraws) = some .attributeError ∧
    (errState (initializeConnectionMatrices mPc10 zeroDraws)).map (fun m => m.F2Rbinary) =
      some (some (matInit mPc10.nR mPc10.nF (probMask mPc10.RperSFrMu zeroDraws.uF2R))) ∧
    (errState (initializeConnectionMatrices mPc10 zeroDraws)).map (fun m => m.F2R) = some none :=
  c10_missing_flag_aborts mPc10 zeroDraws (by norm_num [mPc10, baseParams]) rfl

/-! Section: Claim C9 -/

/-- In capacity mode with at least one receptor the first stage succeeds. -/
theorem stage1_capacity_ok (mP : ModelParams) (d : Draws)
    (hcap : mP.RperFFrMu ≤ 0) (hnR : mP.nR ≠ 0) :
    stage1 mP d = .ok { F2Rbinary := some (matInit mP.nR mP.nF (assignMask mP.nR mP.nF mP.RperFRawNum d.rrPick)) } := by
  simp [stage1, not_lt.mpr hcap, hnR]

/-- With the Gaussian `Rspont` branch the second stage succeeds and does not
touch `noiseRvec`. -/
theorem stage2_gauss_ok (mP : ModelParams) (d : Draws) (m : PartialModel)
    (hflag : mP.spontRdistFlag = 1) :
    ∃ m2, stage2 mP d m = .ok m2 ∧ m2.noiseRvec = m.noiseRvec := by
  simp only [stage2, if_pos hflag]
  exact ⟨_, rfl, rfl⟩

/-- The pure middle stage does not touch `noiseRvec`. -/
theorem stage3_noiseRvec (mP : ModelParams) (d : Draws) (m : PartialModel) :
    (stage3 mP d m).noiseRvec = m.noiseRvec := rfl

/-- With a positive target mean and non-positive std, the Gamma noise stage
raises before assigning anything: `decimal.DivisionByZero` when the std is
exactly `0`, numpy `ValueError` (negative shape) when it is negative. -/
theorem stage4_err (mP : ModelParams) (d : Draws) (m : PartialModel)
    (hm : 0 < mP.noiseR) (hs : mP.RnoiseStd ≤ 0) :
    stage4 mP d m = .error (.decimalDivisionByZero, m) ∨
    stage4 mP d m = .error (.valueError, m) := by
  rcases eq_or_lt_of_le hs with h0 | hneg
  · left
    have hgp : gammaParams mP.noiseR mP.RnoiseStd = .error .decimalDivisionByZero := by
      simp [gammaParams, h0]
    simp only [stage4, hgp]
  · right
    have hsne : mP.RnoiseStd ≠ 0 := ne_of_lt hneg
    have ha : mP.noiseR / mP.RnoiseStd < 0 := div_neg_of_pos_of_neg hm hneg
    have hane : mP.noiseR / mP.RnoiseStd ≠ 0 := ne_of_lt ha
    have hgp : gammaParams mP.noiseR mP.RnoiseStd =
        .ok (mP.noiseR / mP.RnoiseStd, mP.noiseR / (mP.noiseR / mP.RnoiseStd)) := by
      simp [gammaParams, hsne, hane]
    have hgv : npGammaVec (mP.noiseR / mP.RnoiseStd)
        (mP.noiseR / (mP.noiseR / mP.RnoiseStd)) mP.nR d.gamNoiseR = .error .valueError := by
      simp [npGammaVec, Or.inl ha]
    simp only [stage4, hgp, hgv]

/-- Claim C9 (amended): for inputs reaching the Gamma noise step (capacity
mask mode with `nR ≥ 1`, Gaussian `Rspont`) with target mean `noiseR > 0`
and std `RnoiseStd ≤ 0`, construction aborts with a `decimal.DivisionByZero`
(std = 0) or numpy `ValueError` (std < 0) — not with a precondition error
identifying the non-positive variance — and no `noiseRvec` is assigned;
the fields built before the failure remain on the mutated object. -/
theorem c9_amended (mP : ModelParams) (d : Draws)
    (hcap : mP.RperFFrMu ≤ 0) (hnR : mP.nR ≠ 0) (hflag : mP.spontRdistFlag = 1)
    (hm : 0 < mP.noiseR) (hs : mP.RnoiseStd ≤ 0) :
    (errOf (initializeConnectionMatrices mP d) = some .decimalDivisionByZero ∨
     errOf (initializeConnectionMatrices mP d) = some .valueError) ∧
    (errState (initializeConnectionMatrices mP d)).map (fun m => m.noiseRvec) = some none := by
  have hs1 := stage1_capacity_ok mP d hcap hnR
  obtain ⟨m2, h2, hnv⟩ := stage2_gauss_ok mP d
    { F2Rbinary := some (matInit mP.nR mP.nF (assignMask mP.nR mP.nF mP.RperFRawNum d.rrPick)) }
    hflag
  have hb : initializeConnectionMatrices mP d = stage4 mP d (stage3 mP d m2) := by
    simp [initializeConnectionMatrices, hs1, h2]
  have hrv : (stage3 mP d m2).noiseRvec = none := by
    rw [stage3_noiseRvec, hnv]
  rcases stage4_err mP d (stage3 mP d m2) hm hs with h4 | h4
  · refine ⟨Or.inl ?_, ?_⟩
    · rw [hb, h4]
      rfl
    · rw [hb, h4]
      simp [errState, hrv]
  · refine ⟨Or.inr ?_, ?_⟩
    · rw [hb, h4]
      rfl
    · rw [hb, h4]
      simp [errState, hrv]

/-- Witness for `c9_amended` at the concrete record `mPc9`
(`RnoiseStd = 0`). -/
theorem c9_amended_witness :
    (errOf (initializeConnectionMatrices mPc9 zeroDraws) = some .decimalDivisionByZero ∨
     errOf (initializeConnectionMatrices mPc9 zeroDraws) = some .valueError) ∧
    (errState (initializeConnectionMatrices mPc9 zeroDraws)).map (fun m => m.noiseRvec) =
      some none :=
  c9_amended mPc9 zeroDraws (by norm_num [mPc9, baseParams]) (by decide) rfl
    (by norm_num [mPc9, baseParams]) (by norm_num [mPc9, baseParams])

/-- Claim C9 counterexample: at `mPc9` (`RnoiseStd = 0`, everything else
benign) the builder raises `decimal.DivisionByZero`, which is not the
specification's precondition error identifying the non-positive variance. -/
theorem c9_counterexample :
    errOf (initializeConnectionMatrices mPc9 zeroDraws) = some .decimalDivisionByZero ∧
    PyErr.decimalDivisionByZero ≠ PyErr.preconditionNonPositiveVariance := by
  refine ⟨by with_unfolding_all rfl, by decide⟩

/-! Section: Claim C2 -/

theorem rrPicked_mem (nR cap : ℕ) (pick : ℕ → ℕ) (s : RRState) (t : ℕ)
    (h : rrInds nR cap s ≠ []) : rrPicked nR cap pick s t ∈ rrInds nR cap s := by
  have hlen : 0 < (rrInds nR cap s).length := List.length_pos.mpr h
  have hidx : pick t % (rrInds nR cap s).length < (rrInds nR cap s).length :=
    Nat.mod_lt _ hlen
  unfold rrPicked
  rw [List.getD_eq_getElem?_getD, List.getElem?_eq_getElem hidx]
  simp only [Option.getD_some]
  exact List.getElem_mem hidx

theorem rrPicked_lt_cap (nR cap : ℕ) (pick : ℕ → ℕ) (s : RRState) (t : ℕ)
    (h : rrInds nR cap s ≠ []) : s.counts (rrPicked nR cap pick s t) < cap := by
  have hm := rrPicked_mem nR cap pick s t h
  unfold rrInds at hm
  rw [List.mem_filter] at hm
  simpa using hm.2

theorem rrStep_counts_le (nR nF cap : ℕ) (pick : ℕ → ℕ) (s : RRState) (t : ℕ)
    (h : ∀ x, s.counts x ≤ cap) : ∀ x, (rrStep nR nF cap pick s t).counts x ≤ cap := by
  intro x
  unfold rrStep
  split
  · exact h x
  · rename_i hne
    dsimp only
    split
    · rename_i hx
      rw [hx]
      exact Nat.succ_le_of_lt (rrPicked_lt_cap nR cap pick s t hne)
    · exact h x

theorem rrStep_row_le (nR nF cap : ℕ) (pick : ℕ → ℕ) (s : RRState) (t : ℕ)
    (h : ∀ x, rowOnes nF s.mask x ≤ s.counts x) :
    ∀ x, rowOnes nF (rrStep nR nF cap pick s t).mask x ≤
      (rrStep nR nF cap pick s t).counts x := by
  intro x
  unfold rrStep
  split
  · exact h x
  · dsimp only
    by_cases hx : x = rrPicked nR cap pick s t
    · rw [if_pos hx]
      unfold rowOnes
      have hsub : (Finset.range nF).filter
          (fun j => (if x = rrPicked nR cap pick s t ∧ j = t % nF then true
            else s.mask x j) = true) ⊆
          insert (t % nF) ((Finset.range nF).filter (fun j => s.mask x j = true)) := by
        intro j hj
        rw [Finset.mem_filter] at hj
        by_cases hjt : j = t % nF
        · rw [hjt]
          exact Finset.mem_insert_self _ _
        · apply Finset.mem_insert_of_mem
          rw [Finset.mem_filter]
          refine ⟨hj.1, ?_⟩
          have h2 := hj.2
          rw [if_neg (fun hc => hjt hc.2)] at h2
          exact h2
      refine le_trans (Finset.card_le_card hsub) (le_trans (Finset.card_insert_le _ _) ?_)
      exact Nat.add_le_add_right (h x) 1
    · rw [if_neg hx]
      have heq : rowOnes nF
          (fun y j => if y = rrPicked nR cap pick s t ∧ j = t % nF then true
            else s.mask y j) x = rowOnes nF s.mask x := by
        unfold rowOnes
        congr 1
        apply Finset.filter_congr
        intro j _
        have hcond : ¬(x = rrPicked nR cap pick s t ∧ j = t % nF) := fun hc => hx hc.1
        simp only [if_neg hcond]
      rw [heq]
      exact h x

theorem rrStep_col_le (nR nF cap : ℕ) (pick : ℕ → ℕ) (s : RRState) (t : ℕ) (j : ℕ) :
    colOnes nR (rrStep nR nF cap pick s t).mask j ≤
      colOnes nR s.mask j + (if t % nF = j then 1 else 0) := by
  unfold rrStep
  split
  · exact Nat.le_add_right _ _
  · dsimp only
    by_cases hj : t % nF = j
    · rw [if_pos hj]
      unfold colOnes
      have hsub : (Finset.range nR).filter
          (fun i => (if i = rrPicked nR cap pick s t ∧ j = t % nF then true
            else s.mask i j) = true) ⊆
          insert (rrPicked nR cap pick s t)
            ((Finset.range nR).filter (fun i => s.mask i j = true)) := by
        intro i hi
        rw [Finset.mem_filter] at hi
        by_cases hip : i = rrPicked nR cap pick s t
        · rw [hip]
          exact Finset.mem_insert_self _ _
        · apply Finset.mem_insert_of_mem
          rw [Finset.mem_filter]
          refine ⟨hi.1, ?_⟩
          have h2 := hi.2
          rw [if_neg (fun hc => hip hc.1)] at h2
          exact h2
      exact le_trans (Finset.card_le_card hsub) (Finset.card_insert_le _ _)
    · rw [if_neg hj]
      have heq : colOnes nR
          (fun y j2 => if y = rrPicked nR cap pick s t ∧ j2 = t % nF then true
            else s.mask y j2) j = colOnes nR s.mask j := by
        unfold colOnes
        congr 1
        apply Finset.filter_congr
        intro i _
        have hcond : ¬(i = rrPicked nR cap pick s t ∧ j = t % nF) :=
          fun hc => hj hc.2.symm
        simp only [if_neg hcond]
      rw [heq]
      exact Nat.le_add_right _ _

theorem rr_fold_counts_le (nR nF cap : ℕ) (pick : ℕ → ℕ) :
    ∀ (l : List ℕ) (s : RRState), (∀ x, s.counts x ≤ cap) →
      ∀ x, (l.foldl (rrStep nR nF cap pick) s).counts x ≤ cap := by
  intro l
  induction l with
  | nil => exact fun s h x => h x
  | cons t l ih =>
    intro s h x
    exact ih (rrStep nR nF cap pick s t) (rrStep_counts_le nR nF cap pick s t h) x

theorem rr_fold_row_le (nR nF cap : ℕ) (pick : ℕ → ℕ) :
    ∀ (l : List ℕ) (s : RRState), (∀ x, rowOnes nF s.mask x ≤ s.counts x) →
      ∀ x, rowOnes nF (l.foldl (rrStep nR nF cap pick) s).mask x ≤
        (l.foldl (rrStep nR nF cap pick) s).counts x := by
  intro l
  induction l with
  | nil => exact fun s h x => h x
  | cons t l ih =>
    intro s h x
    exact ih (rrStep nR nF cap pick s t) (rrStep_row_le nR nF cap pick s t h) x

theorem rr_fold_col_le (nR nF cap : ℕ) (pick : ℕ → ℕ) :
    ∀ (l : List ℕ) (s : RRState) (j : ℕ),
      colOnes nR (l.foldl (rrStep nR nF cap pick) s).mask j ≤
        colOnes nR s.mask j + l.countP (fun t => decide (t % nF = j)) := by
  intro l
  induction l with
  | nil => intro s j; simp
  | cons t l ih =>
    intro s j
    have h1 := ih (rrStep nR nF cap pick s t) j
    have h2 := rrStep_col_le nR nF cap pick s t j
    have h3 : (t :: l).foldl (rrStep nR nF cap pick) s =
        l.foldl (rrStep nR nF cap pick) (rrStep nR nF cap pick s t) := rfl
    by_cases h : t % nF = j
    · rw [if_pos h] at h2
      have hc : List.countP (fun t2 => decide (t2 % nF = j)) (t :: l) =
          List.countP (fun t2 => decide (t2 % nF = j)) l + 1 := by
        rw [List.countP_cons_of_pos]
        exact decide_eq_true h
      rw [h3, hc]
      omega
    · rw [if_neg h] at h2
      have hc : List.countP (fun t2 => decide (t2 % nF = j)) (t :: l) =
          List.countP (fun t2 => decide (t2 % nF = j)) l := by
        rw [List.countP_cons_of_neg]
        simp [h]
      rw [h3, hc]
      omega

theorem countP_range_eq_one (n j : ℕ) (hj : j < n) :
    (List.range n).countP (fun i => decide (i = j)) = 1 := by
  induction n with
  | zero => omega
  | succ n ih =>
    rw [List.range_succ, List.countP_append]
    rcases Nat.lt_succ_iff_lt_or_eq.mp hj with h | h
    · rw [ih h]
      have hz : List.countP (fun i => decide (i = j)) [n] = 0 := by
        have : n ≠ j := by omega
        simp [List.countP_cons, this]
      rw [hz]
    · subst h
      have h0 : List.countP (fun i => decide (i = j)) (List.range j) = 0 := by
        apply List.countP_eq_zero.mpr
        intro a ha
        rw [List.mem_range] at ha
        simp only [decide_eq_true_eq]
        omega
      rw [h0]
      simp [List.countP_cons]

theorem countP_range_mod (nF K j : ℕ) (hj : j < nF) :
    (List.range (K * nF)).countP (fun t => decide (t % nF = j)) = K := by
  induction K with
  | zero => simp
  | succ k ih =>
    have he : (k + 1) * nF = k * nF + nF := by ring
    rw [he, List.range_add, List.countP_append, ih]
    have h1 : ((List.range nF).map (fun i => k * nF + i)).countP
        (fun t => decide (t % nF = j)) = 1 := by
      rw [List.countP_map]
      have h2 : ∀ i ∈ List.range nF,
          (((fun t => decide (t % nF = j)) ∘ (fun i => k * nF + i)) i = true ↔
            decide (i = j) = true) := by
        intro i hi
        rw [List.mem_range] at hi
        have hmod : (k * nF + i) % nF = i := by
          rw [Nat.mul_comm k nF, Nat.mul_add_mod]
          exact Nat.mod_eq_of_lt hi
        simp only [Function.comp, hmod]
      rw [List.countP_congr h2]
      exact countP_range_eq_one nF j hj
    rw [h1]

/-- Claim C2 counterexample: `nR = 2` sources, `nF = 2` destinations,
`RperFRawNum = 2`, so total capacity `nR·maxFperR = 4` equals total demand
`nF·RperFRawNum = 4`; yet with the `randint` stream `0,1,0,1,…` the loop
picks source 0 for destination 0 in both passes (the selection only respects
remaining capacity, never whether the pair is already connected), so
destination column 0 ends with a single assigned source, not 2. -/
theorem c2_counterexample :
    2 * 2 ≤ 2 * maxFperR 2 2 2 ∧
    colOnes 2 (assignMask 2 2 2 (fun t => t % 2)) 0 ≠ 2 := by
  constructor
  · decide
  · decide

/-- Claim C2 (amended): in capacity-constrained round-robin mode every
destination column ends with at most `RperFRawNum` assigned sources (fewer
when the same source is drawn for the same destination in more than one
pass), and no source row ever exceeds the per-source capacity
`maxFperR = ceil(nF·RperFRawNum/nR)`. -/
theorem c2_amended (nR nF k : ℕ) (pick : ℕ → ℕ) (j x : ℕ) (hj : j < nF) :
    colOnes nR (assignMask nR nF k pick) j ≤ k ∧
    rowOnes nF (assignMask nR nF k pick) x ≤ maxFperR nF k nR := by
  constructor
  · have h := rr_fold_col_le nR nF (maxFperR nF k nR) pick (List.range (k * nF)) rrInit j
    rw [countP_range_mod nF k j hj] at h
    have h0 : colOnes nR rrInit.mask j = 0 := by
      simp [colOnes, rrInit]
    unfold assignMask rrRun
    omega
  · have hc := rr_fold_counts_le nR nF (maxFperR nF k nR) pick (List.range (k * nF)) rrInit
      (fun _ => Nat.zero_le _) x
    have hr := rr_fold_row_le nR nF (maxFperR nF k nR) pick (List.range (k * nF)) rrInit
      (fun y => by simp [rowOnes, rrInit]) x
    unfold assignMask rrRun
    exact le_trans hr hc

/-- Witness for `c2_amended` at `nR = nF = RperFRawNum = 2`, column 0,
row 0. -/
theorem c2_amended_witness :
    colOnes 2 (assignMask 2 2 2 (fun _ => 0)) 0 ≤ 2 ∧
    rowOnes 2 (assignMask 2 2 2 (fun _ => 0)) 0 ≤ maxFperR 2 2 2 :=
  c2_amended 2 2 2 (fun _ => 0) 0 0 (by norm_num)

end PyMoth
